import Mathlib

/-!
Verification of the consensus-core specification of a Nimiq Albatross full
node against a shallow embedding of its Rust sources.

The embedding covers:
* the fixed-point unsigned arithmetic library (`fixed-unsigned/src/lib.rs`),
* the blockchain event projection (`blockchain-interface/src/error.rs`),
* slot and validator selection (`blockchain/src/blockchain/slots.rs`),
* the Tendermint persistence snapshot
  (`validator/src/aggregation/tendermint/state.rs`),
* the equivocation-proof deduplication contract (modelled from the spec,
  as the push logic itself is outside the provided sources).

Machine integers are modelled as `Nat`; the functions below are transcribed
from the Rust sources loop by loop.  Definitions marked `Modelled from the
spec` stand for repository code that is not among the provided source files
(policy constants, slots-allocation lookups, the VRF slot draw and the
equivocation handling inside `push`).
-/

namespace FixedUnsigned

/-- Maximum number of digits a decimal number can have in a `u64`
(`U64_MAX_DIGITS` in the source). -/
def U64_MAX_DIGITS : Nat := 19

/-- `10 ^ U64_MAX_DIGITS`, the constant `U64_MAX_DECIMAL` of the source. -/
def U64_MAX_DECIMAL : Nat := 10000000000000000000

/-- `FixedUnsigned::scale_up`: multiply by `10 ^ scale`, first in chunks of
`10 ^ 19`, then digit by digit.  The two `while` loops of the source are the
two branches of the recursion. -/
def scale_up (int_value : Nat) (scale : Nat) : Nat :=
  if h : U64_MAX_DIGITS ≤ scale then
    scale_up (int_value * U64_MAX_DECIMAL) (scale - U64_MAX_DIGITS)
  else if h2 : 0 < scale then
    scale_up (int_value * 10) (scale - 1)
  else
    int_value
termination_by scale
decreasing_by
  all_goals simp only [U64_MAX_DIGITS] at *
  all_goals omega

/-- The fused second loop and final rounding step of
`FixedUnsigned::scale_down`: `while scale > 1 { int_value /= 10 }`, then for
`scale > 0` divide once more by `10` and add one when the last digit
(`carrier`) is at least `5`. -/
def scale_down_small (int_value : Nat) (scale : Nat) : Nat :=
  if h : 1 < scale then
    scale_down_small (int_value / 10) (scale - 1)
  else if 0 < scale then
    if 5 ≤ int_value % 10 then int_value / 10 + 1 else int_value / 10
  else
    int_value
termination_by scale
decreasing_by
  omega

/-- `FixedUnsigned::scale_down`: first loop divides by `10 ^ 19` while
`scale ≥ 19` (truncating), the rest is `scale_down_small`. -/
def scale_down (int_value : Nat) (scale : Nat) : Nat :=
  if h : U64_MAX_DIGITS ≤ scale then
    scale_down (int_value / U64_MAX_DECIMAL) (scale - U64_MAX_DIGITS)
  else
    scale_down_small int_value scale
termination_by scale
decreasing_by
  simp only [U64_MAX_DIGITS] at *
  omega

/-- `impl Mul for FixedUnsigned`: `scale_down(a * b, SCALE)` on the integer
representations. -/
def fixedMul (SCALE a b : Nat) : Nat :=
  scale_down (a * b) SCALE

/-- `impl MulAssign for FixedUnsigned`: `self = scale_down(self * other, SCALE)`. -/
def fixedMulAssign (SCALE a b : Nat) : Nat :=
  scale_down (a * b) SCALE

/-- `impl Div for FixedUnsigned`: `scale_up(a, SCALE) / b` with truncating
big-integer division. -/
def fixedDiv (SCALE a b : Nat) : Nat :=
  scale_up a SCALE / b

/-- `impl DivAssign for FixedUnsigned`:
`self = scale_up(self * other, SCALE)` — note the source multiplies by the
right-hand side and scales up, unlike `Div`. -/
def fixedDivAssign (SCALE a b : Nat) : Nat :=
  scale_up (a * b) SCALE

/-- Division rounded half-up, following the spec's words: the integer nearest
to `p / q`, with ties going up. -/
def divHalfUp (p q : Nat) : Nat :=
  (2 * p + q) / (2 * q)

/-- `BigUint::from_bytes_be` on a big-endian byte list. -/
def from_bytes_be (bytes : List Nat) : Nat :=
  bytes.foldl (fun acc d => acc * 256 + d) 0

/-- `FixedUnsigned::from_bytes_le` — the source body calls
`BigUint::from_bytes_be` on its input. -/
def from_bytes_le (bytes : List Nat) : Nat :=
  from_bytes_be bytes

/-- Little-endian base-256 digits of a positive number, least significant
first. -/
def to_bytes_le_aux (n : Nat) : List Nat :=
  if h : 0 < n then n % 256 :: to_bytes_le_aux (n / 256) else []
termination_by n
decreasing_by
  exact Nat.div_lt_self h (by omega)

/-- `BigUint::to_bytes_le` (used by `FixedUnsigned::to_bytes_le`): the
little-endian byte representation, `[0]` for zero. -/
def to_bytes_le (n : Nat) : List Nat :=
  if n = 0 then [0] else to_bytes_le_aux n

lemma scale_up_eq (scale : Nat) : ∀ int_value : Nat,
    scale_up int_value scale = int_value * 10 ^ scale := by
  induction scale using Nat.strong_induction_on with
  | _ scale ih =>
    intro int_value
    unfold scale_up
    by_cases h : U64_MAX_DIGITS ≤ scale
    · have hlt : scale - U64_MAX_DIGITS < scale := by
        simp only [U64_MAX_DIGITS] at h ⊢
        omega
      have hd : (U64_MAX_DECIMAL : Nat) = 10 ^ U64_MAX_DIGITS := by
        norm_num [U64_MAX_DECIMAL, U64_MAX_DIGITS]
      rw [dif_pos h, ih (scale - U64_MAX_DIGITS) hlt, hd, mul_assoc, ← pow_add]
      congr 2
      simp only [U64_MAX_DIGITS] at h ⊢
      omega
    · rw [dif_neg h]
      by_cases h2 : 0 < scale
      · rw [dif_pos h2, ih (scale - 1) (by omega), mul_assoc]
        congr 1
        rw [show (10 : Nat) * 10 ^ (scale - 1) = 10 ^ (scale - 1 + 1) from
          (pow_succ' 10 (scale - 1)).symm]
        congr 1
        omega
      · rw [dif_neg h2]
        have hz : scale = 0 := by omega
        simp [hz]

lemma scale_down_small_eq (scale : Nat) (hs : 1 ≤ scale) : ∀ int_value : Nat,
    scale_down_small int_value scale =
      (int_value + 5 * 10 ^ (scale - 1)) / 10 ^ scale := by
  induction scale using Nat.strong_induction_on with
  | _ scale ih =>
    intro int_value
    unfold scale_down_small
    by_cases h : 1 < scale
    · rw [dif_pos h, ih (scale - 1) (by omega) (by omega)]
      have ha : scale - 1 - 1 = scale - 2 := by omega
      have hb : (5 : Nat) * 10 ^ (scale - 2) * 10 = 5 * 10 ^ (scale - 1) := by
        rw [mul_assoc, ← pow_succ]
        congr 2
        omega
      have hc : (10 : Nat) * 10 ^ (scale - 1) = 10 ^ scale := by
        rw [show (10 : Nat) * 10 ^ (scale - 1) = 10 ^ (scale - 1 + 1) from
          (pow_succ' 10 (scale - 1)).symm]
        congr 1
        omega
      rw [ha, show int_value / 10 + 5 * 10 ^ (scale - 2)
            = (int_value + 5 * 10 ^ (scale - 2) * 10) / 10 from
          (Nat.add_mul_div_right _ _ (by norm_num)).symm]
      rw [Nat.div_div_eq_div_mul, hb, hc]
    · rw [dif_neg h]
      have h1 : scale = 1 := by omega
      subst h1
      rw [if_pos (by norm_num : (0 : Nat) < 1)]
      norm_num
      rcases Nat.lt_or_ge (int_value % 10) 5 with hlt | hge
      · rw [if_neg (by omega)]
        omega
      · rw [if_pos hge]
        omega

lemma scale_down_eq (scale : Nat) (hs : 1 ≤ scale) : ∀ int_value : Nat,
    scale_down int_value scale =
      if scale % 19 = 0 then int_value / 10 ^ scale
      else (int_value + 5 * 10 ^ (scale - 1)) / 10 ^ scale := by
  induction scale using Nat.strong_induction_on with
  | _ scale ih =>
    intro int_value
    unfold scale_down
    have hD : (U64_MAX_DECIMAL : Nat) = 10 ^ (19 : Nat) := by
      norm_num [U64_MAX_DECIMAL]
    by_cases h : U64_MAX_DIGITS ≤ scale
    · rw [dif_pos h]
      have h19 : 19 ≤ scale := by simpa [U64_MAX_DIGITS] using h
      by_cases h20 : scale = 19
      · subst h20
        simp only [U64_MAX_DIGITS, Nat.sub_self]
        unfold scale_down
        rw [dif_neg (by norm_num [U64_MAX_DIGITS])]
        unfold scale_down_small
        norm_num [U64_MAX_DECIMAL]
      · have hge : 1 ≤ scale - U64_MAX_DIGITS := by
          simp only [U64_MAX_DIGITS]
          omega
        have hlt : scale - U64_MAX_DIGITS < scale := by
          simp only [U64_MAX_DIGITS]
          omega
        rw [ih (scale - U64_MAX_DIGITS) hlt hge]
        simp only [U64_MAX_DIGITS]
        have hmod : (scale - 19) % 19 = scale % 19 := by omega
        rw [hmod]
        by_cases hz : scale % 19 = 0
        · rw [if_pos hz, if_pos hz, hD, Nat.div_div_eq_div_mul, ← pow_add]
          congr 2
          omega
        · rw [if_neg hz, if_neg hz]
          have hstep : int_value / U64_MAX_DECIMAL + 5 * 10 ^ (scale - 19 - 1)
              = (int_value + 5 * 10 ^ (scale - 19 - 1) * U64_MAX_DECIMAL) / U64_MAX_DECIMAL := by
            rw [Nat.add_mul_div_right _ _ (by norm_num [U64_MAX_DECIMAL])]
          rw [hstep, Nat.div_div_eq_div_mul, hD, ← pow_add, mul_assoc, ← pow_add]
          have e1 : scale - 19 - 1 + 19 = scale - 1 := by omega
          have e2 : 19 + (scale - 19) = scale := by omega
          rw [e1, e2]
    · rw [dif_neg h]
      have hlt19 : scale < 19 := by
        simp only [U64_MAX_DIGITS] at h
        omega
      rw [scale_down_small_eq scale hs, if_neg (by omega)]

/-- C7: the compound-assignment division disagrees with the binary division
operator: `DivAssign` computes `scale_up(a * b, SCALE)` while `Div` computes
`scale_up(a, SCALE) / b`. -/
theorem fixedDivAssign_ne_fixedDiv :
    ∃ SCALE a b : Nat, fixedDivAssign SCALE a b ≠ fixedDiv SCALE a b := by
  refine ⟨1, 10, 10, ?_⟩
  unfold fixedDivAssign fixedDiv
  rw [scale_up_eq, scale_up_eq]
  norm_num

/-- C5 counterexample: at scale 1, dividing the value with integer
representation 2 by the value with integer representation 3 yields 6
(truncation), not the half-up rounding 7 of `20 / 3`. -/
theorem fixedDiv_not_half_up : fixedDiv 1 2 3 ≠ divHalfUp (2 * 10 ^ 1) 3 := by
  unfold fixedDiv divHalfUp
  rw [scale_up_eq]
  norm_num

/-- C5 (amended): `Div` returns the truncation `(a * 10 ^ SCALE) / b`
(floor, not half-up); the result underestimates the exact scaled quotient
by less than one unit in the last place. -/
theorem fixedDiv_floor (SCALE a b : Nat) (hb : b ≠ 0) :
    fixedDiv SCALE a b = a * 10 ^ SCALE / b ∧
    b * fixedDiv SCALE a b ≤ a * 10 ^ SCALE ∧
    a * 10 ^ SCALE < b * (fixedDiv SCALE a b + 1) := by
  have h0 : 0 < b := Nat.pos_of_ne_zero hb
  unfold fixedDiv
  rw [scale_up_eq]
  refine ⟨rfl, ?_, ?_⟩
  · calc b * (a * 10 ^ SCALE / b) = a * 10 ^ SCALE / b * b := Nat.mul_comm _ _
    _ ≤ a * 10 ^ SCALE := Nat.div_mul_le_self _ _
  · calc a * 10 ^ SCALE < (a * 10 ^ SCALE / b + 1) * b :=
        (Nat.div_lt_iff_lt_mul h0).mp (Nat.lt_succ_self _)
    _ = b * (a * 10 ^ SCALE / b + 1) := Nat.mul_comm _ _

/-- C5/C6 witness input. -/
theorem fixedDiv_floor_witness :
    3 ≠ 0 ∧ (fixedDiv 1 2 3 = 2 * 10 ^ 1 / 3 ∧
      3 * fixedDiv 1 2 3 ≤ 2 * 10 ^ 1 ∧ 2 * 10 ^ 1 < 3 * (fixedDiv 1 2 3 + 1)) :=
  ⟨by norm_num, fixedDiv_floor 1 2 3 (by norm_num)⟩

/-- C6 counterexample: at scale 19 (a positive multiple of 19) the first
loop of `scale_down` consumes the whole scale by truncating division and the
half-up rounding step never runs: `1 * 5·10^18` scaled down gives `0`, while
the half-up formula gives `1`. -/
theorem fixedMul_not_always_half_up :
    fixedMul 19 1 5000000000000000000 ≠
      (1 * 5000000000000000000 + 5 * 10 ^ (19 - 1)) / 10 ^ 19 := by
  unfold fixedMul
  rw [scale_down_eq 19 (by norm_num), if_pos (by norm_num)]
  norm_num

/-- C6 (amended): `Mul` and `MulAssign` agree, both computing
`scale_down(a * b, SCALE)`; whenever `SCALE ≥ 1` is not a multiple of 19 this
is exactly the half-up rounding `(a·b + 5·10^(SCALE-1)) / 10^SCALE`, but when
`SCALE` is a positive multiple of 19 `scale_down` truncates without
rounding. -/
theorem fixedMul_halfup (SCALE a b : Nat) (h1 : 1 ≤ SCALE) (h2 : SCALE % 19 ≠ 0) :
    fixedMul SCALE a b = fixedMulAssign SCALE a b ∧
    fixedMul SCALE a b = (a * b + 5 * 10 ^ (SCALE - 1)) / 10 ^ SCALE := by
  refine ⟨rfl, ?_⟩
  unfold fixedMul
  rw [scale_down_eq SCALE h1, if_neg h2]

/-- C6 witness input. -/
theorem fixedMul_halfup_witness :
    1 ≤ 2 ∧ 2 % 19 ≠ 0 ∧
      (fixedMul 2 15 1 = fixedMulAssign 2 15 1 ∧
       fixedMul 2 15 1 = (15 * 1 + 5 * 10 ^ (2 - 1)) / 10 ^ 2) :=
  ⟨by norm_num, by norm_num, fixedMul_halfup 2 15 1 (by norm_num) (by norm_num)⟩

/-- C9: `from_bytes_le` interprets its input exactly like `from_bytes_be`
(the source body of the little-endian constructor calls the big-endian
`BigUint` parser), and consequently the little-endian round trip
`from_bytes_le (to_bytes_le x)` fails to restore some value `x`. -/
theorem from_bytes_le_is_big_endian :
    (∀ bytes : List Nat, from_bytes_le bytes = from_bytes_be bytes) ∧
    ∃ x : Nat, from_bytes_le (to_bytes_le x) ≠ x := by
  refine ⟨fun _ => rfl, 256, ?_⟩
  have h : to_bytes_le 256 = [0, 1] := by
    unfold to_bytes_le
    rw [if_neg (by norm_num)]
    unfold to_bytes_le_aux
    norm_num
    unfold to_bytes_le_aux
    norm_num
    unfold to_bytes_le_aux
    norm_num
  rw [h]
  decide

end FixedUnsigned

abbrev Blake2bHash := Nat

abbrev NetworkId := Nat

/-- `BlockchainError` from `blockchain-interface/src/error.rs`. -/
inductive BlockchainError where
  | InvalidGenesisBlock
  | FailedLoadingMainChain
  | InconsistentState
  | NoNetwork (id : NetworkId)
  | BlockNotFound (n : Nat)
  | BlockNotFoundByHash (h : Blake2bHash)
  | BlockBodyNotFound
  | BlockIsNotMacro
  | NoValidatorsFound
  | InvalidEpoch
  | AccountsDiffNotFound
  | GenesisAccountsRequiredMainnet
  | GenesisAccountsRequired
deriving DecidableEq

abbrev BlockError := Nat

abbrev EquivocationProofError := Nat

abbrev AccountsErr := Nat

abbrev EquivocationLocator := Nat

/-- `PushError` from `blockchain-interface/src/error.rs` (payload types of
external crates modelled as opaque numbers). -/
inductive PushError where
  | Orphan
  | InvalidZKP
  | InvalidBlock (e : BlockError)
  | InvalidSuccessor
  | InvalidPredecessor
  | DuplicateTransaction
  | InvalidEquivocationProof (e : EquivocationProofError)
  | AccountsError (e : AccountsErr)
  | InvalidFork
  | BlockchainError (e : BlockchainError)
  | MissingAccountsTrieDiff
  | EquivocationAlreadyIncluded (locator : EquivocationLocator)
  | IncompleteAccountsTrie
deriving DecidableEq

namespace Events

/-- A block as observed by the event projection: `added_hashes` only uses
`block.hash()`, so the model carries the block's wire hash. -/
structure Block where
  hash : Blake2bHash
deriving DecidableEq

/-- `BlockchainEvent` from `blockchain-interface/src/error.rs`.  For
`Rebranched`, the first and second list are the adopted and reverted chain,
respectively. -/
inductive BlockchainEvent where
  | Extended (hash : Blake2bHash)
  | HistoryAdopted (hash : Blake2bHash)
  | Rebranched (adopted : List (Blake2bHash × Block)) (reverted : List (Blake2bHash × Block))
  | Stored (block : Block)
  | Finalized (hash : Blake2bHash)
  | EpochFinalized (hash : Blake2bHash)
deriving DecidableEq

/-- `BlockchainEvent::added_hashes`: all added block hashes of an event. -/
def added_hashes : BlockchainEvent → List Blake2bHash
  | .EpochFinalized _ => []
  | .Extended hash => [hash]
  | .Finalized _ => []
  | .HistoryAdopted hash => [hash]
  | .Rebranched adopted_blocks _reverted_blocks => adopted_blocks.map (fun p => p.1)
  | .Stored block => [block.hash]

/-- C4: `added_hashes` returns the empty list for `Finalized` and
`EpochFinalized`, the carried hash for `Extended` and `HistoryAdopted`, the
stored block's hash for `Stored`, and the hashes of the adopted blocks in
order for `Rebranched`. -/
theorem added_hashes_spec :
    (∀ h, added_hashes (.Finalized h) = []) ∧
    (∀ h, added_hashes (.EpochFinalized h) = []) ∧
    (∀ h, added_hashes (.Extended h) = [h]) ∧
    (∀ h, added_hashes (.HistoryAdopted h) = [h]) ∧
    (∀ b, added_hashes (.Stored b) = [b.hash]) ∧
    (∀ adopted reverted,
      added_hashes (.Rebranched adopted reverted) = adopted.map (fun p => p.1)) :=
  ⟨fun _ => rfl, fun _ => rfl, fun _ => rfl, fun _ => rfl, fun _ => rfl,
    fun _ _ => rfl⟩

end Events

namespace Equivocation

/-- Modelled from the spec: an equivocation proof as seen by the push
deduplication — its canonical `EquivocationLocator` and the outcome of its
validity check (the proof kinds and their verification are external to this
embedding). -/
structure EquivocationProof where
  locator : EquivocationLocator
  valid : Bool
deriving DecidableEq

/-- Modelled from the spec: the equivocation handling inside
`Blockchain::push` (the push implementation itself is not among the provided
source files).  The chain keeps the set of already-included equivocation
locators; a proof whose locator was seen before is rejected with
`EquivocationAlreadyIncluded` carrying the locator, leaving the state
unchanged; a valid unseen proof is accepted and its locator stored; an
invalid proof is rejected with `InvalidEquivocationProof`. -/
def push_equivocation (seen : List EquivocationLocator) (p : EquivocationProof) :
    List EquivocationLocator × Option PushError :=
  if p.locator ∈ seen then (seen, some (.EquivocationAlreadyIncluded p.locator))
  else if p.valid then (p.locator :: seen, none)
  else (seen, some (.InvalidEquivocationProof 0))

/-- C8: a valid, unseen equivocation proof is accepted and its locator
stored; submitting the same proof again fails with
`EquivocationAlreadyIncluded` carrying its locator and leaves the set of
stored locators unchanged. -/
theorem push_equivocation_dedup (seen : List EquivocationLocator)
    (p : EquivocationProof) (hvalid : p.valid = true) (hnew : p.locator ∉ seen) :
    (push_equivocation seen p).2 = none ∧
    p.locator ∈ (push_equivocation seen p).1 ∧
    push_equivocation (push_equivocation seen p).1 p =
      ((push_equivocation seen p).1,
        some (.EquivocationAlreadyIncluded p.locator)) := by
  unfold push_equivocation
  rw [if_neg hnew, if_pos hvalid]
  refine ⟨rfl, List.mem_cons_self _ _, ?_⟩
  simp

/-- C8 witness input: the empty locator set and a valid proof with
locator 0. -/
theorem push_equivocation_dedup_witness :
    ((⟨0, true⟩ : EquivocationProof).valid = true) ∧
    ((⟨0, true⟩ : EquivocationProof).locator ∉ ([] : List EquivocationLocator)) ∧
    ((push_equivocation [] ⟨0, true⟩).2 = none ∧
      (⟨0, true⟩ : EquivocationProof).locator ∈ (push_equivocation [] ⟨0, true⟩).1 ∧
      push_equivocation (push_equivocation [] ⟨0, true⟩).1 ⟨0, true⟩ =
        ((push_equivocation [] ⟨0, true⟩).1,
          some (.EquivocationAlreadyIncluded (⟨0, true⟩ : EquivocationProof).locator))) :=
  ⟨rfl, by simp, push_equivocation_dedup [] ⟨0, true⟩ rfl (by simp)⟩

end Equivocation

namespace Chain

/-- Modelled from the spec: the policy constants fixed per network
(`Policy` of `nimiq_primitives`, not among the provided sources). -/
structure Policy where
  batch_length : Nat
  batches_per_epoch : Nat

/-- Modelled from the spec: `batch_at(n) = n / BATCH_LENGTH`. -/
def Policy.batch_at (P : Policy) (n : Nat) : Nat :=
  n / P.batch_length

/-- Modelled from the spec: `epoch_at(n) = batch_at(n) / BATCHES_PER_EPOCH`. -/
def Policy.epoch_at (P : Policy) (n : Nat) : Nat :=
  P.batch_at n / P.batches_per_epoch

/-- Modelled from the spec:
`election_block_of(epoch) = epoch · BATCHES_PER_EPOCH · BATCH_LENGTH`.  The
real function returns an `Option` (its `None` case — a `u32` overflow — is
not described by the spec, so the model always succeeds). -/
def Policy.election_block_of (P : Policy) (epoch : Nat) : Option Nat :=
  some (epoch * P.batches_per_epoch * P.batch_length)

/-- Modelled from the spec: `macro_block_before(n)` is the largest macro
block number (multiple of `BATCH_LENGTH`) strictly below `n`. -/
def Policy.macro_block_before (P : Policy) (n : Nat) : Nat :=
  (n - 1) / P.batch_length * P.batch_length

abbrev Validator := Nat

/-- Modelled from the spec: an epoch's validator set
(`primitives::slots_allocation::Validators`, not among the provided
sources), exposing the two lookups `get_proposer` uses — the validator
owning a slot number and the contiguous slot band containing it. -/
structure Validators where
  get_validator_by_slot_number : Nat → Validator
  get_band_from_slot : Nat → Nat

/-- The body of a macro block as used by `slots.rs`: the punished set
applied to slot selection in the following batch. -/
structure MacroBody where
  next_batch_initial_punished_set : List Nat

/-- A macro block as used by `slots.rs`: its optional body and the result of
`get_validators()` (modelled from the spec: the validator set an election
macro block installs, `None` for non-election macros). -/
structure MacroBlock where
  body : Option MacroBody
  validators : Option Validators

/-- A stored block: micro, or macro with its payload. -/
inductive Block where
  | micro
  | macro_block (m : MacroBlock)

/-- `Block::unwrap_macro`; `none` models the panic on a micro block. -/
def unwrap_macro_block : Block → Option MacroBlock
  | .micro => none
  | .macro_block m => some m

/-- Modelled from the spec: the returned proposer slot
`{slot_number, band, validator}` (`slots_allocation::Slot`). -/
structure Slot where
  number : Nat
  band : Nat
  validator : Validator

/-- The state and store access of `Blockchain` used by `slots.rs`: the head
block number, the current and previous epoch slots, the chain store's
`get_block_at` (the include-body flag is always set by these callers), and
`compute_slot_number` (modelled from the spec: the deterministic VRF slot
draw of `AbstractBlockchain`, abstract here — it takes the round offset, the
VRF entropy and the disabled-slot set). -/
structure Blockchain where
  head_block_number : Nat
  current_slots : Option Validators
  previous_slots : Option Validators
  get_block_at : Nat → Except BlockchainError Block
  compute_slot_number : Nat → Nat → List Nat → Nat

/-- `Blockchain::get_validators_for_epoch` from
`blockchain/src/blockchain/slots.rs`; the outer `Option` is `none` exactly
when the Rust code would panic (`unwrap_macro` on a non-macro block). -/
def get_validators_for_epoch (P : Policy) (bc : Blockchain) (epoch : Nat) :
    Option (Except BlockchainError Validators) :=
  let current_epoch := P.epoch_at bc.head_block_number
  if epoch = current_epoch then
    some (match bc.current_slots with
      | some v => .ok v
      | none => .error .NoValidatorsFound)
  else if epoch + 1 = current_epoch then
    some (match bc.previous_slots with
      | some v => .ok v
      | none => .error .NoValidatorsFound)
  else if epoch = 0 then
    some (.error .InvalidEpoch)
  else
    match P.election_block_of (epoch - 1) with
    | none => some (.error .InvalidEpoch)
    | some height =>
      match bc.get_block_at height with
      | .error e => some (.error e)
      | .ok b =>
        match unwrap_macro_block b with
        | none => none
        | some m =>
          some (match m.validators with
            | some v => .ok v
            | none => .error .NoValidatorsFound)

/-- `Blockchain::get_proposer` from `blockchain/src/blockchain/slots.rs`;
the outer `Option` is `none` exactly when the Rust code would panic
(`unwrap_macro` on a micro block or `unwrap` on a missing body). -/
def get_proposer (P : Policy) (bc : Blockchain)
    (block_number offset vrf_entropy : Nat) :
    Option (Except BlockchainError Slot) :=
  match bc.get_block_at (P.macro_block_before block_number) with
  | .error e => some (.error e)
  | .ok b =>
    match unwrap_macro_block b with
    | none => none
    | some m =>
      match m.body with
      | none => none
      | some body =>
        let disabled_slots := body.next_batch_initial_punished_set
        let slot_number := bc.compute_slot_number offset vrf_entropy disabled_slots
        match get_validators_for_epoch P bc (P.epoch_at block_number) with
        | none => none
        | some (.error e) => some (.error e)
        | some (.ok validators) =>
          some (.ok { number := slot_number,
                      band := validators.get_band_from_slot slot_number,
                      validator := validators.get_validator_by_slot_number slot_number })

/-- A trivial validator set used as concrete test data. -/
def sampleValidators : Validators :=
  { get_validator_by_slot_number := fun _ => 0, get_band_from_slot := fun _ => 0 }

/-- A chain whose head is the genesis block (epoch 0) with installed
current slots. -/
def sampleChainZero : Blockchain :=
  { head_block_number := 0,
    current_slots := some sampleValidators,
    previous_slots := none,
    get_block_at := fun n => .error (.BlockNotFound n),
    compute_slot_number := fun _ _ _ => 0 }

/-- A chain whose head block 8 lies in epoch 2 for the policy with batch
length 2 and 2 batches per epoch. -/
def sampleChainTwo : Blockchain :=
  { head_block_number := 8,
    current_slots := some sampleValidators,
    previous_slots := none,
    get_block_at := fun n => .error (.BlockNotFound n),
    compute_slot_number := fun _ _ _ => 0 }

/-- C1 counterexample: on a chain whose head is in epoch 0 the first branch
wins, so asking for epoch 0 returns the current slots (or
`NoValidatorsFound`), never `InvalidEpoch`. -/
theorem get_validators_for_epoch_zero_not_invalid :
    get_validators_for_epoch ⟨1, 1⟩ sampleChainZero 0 ≠
      some (.error .InvalidEpoch) := by
  unfold get_validators_for_epoch sampleChainZero
  simp [Policy.epoch_at, Policy.batch_at]

/-- C1 (amended): `get_validators_for_epoch` checks its branches in order —
current epoch first, previous epoch second, epoch 0 third, chain store
otherwise — so epoch 0 yields `InvalidEpoch` only when it is neither the
current nor the immediately preceding epoch, in particular whenever the
current epoch is at least 2. -/
theorem get_validators_for_epoch_spec (P : Policy) (bc : Blockchain) (epoch : Nat) :
    (epoch = P.epoch_at bc.head_block_number →
      get_validators_for_epoch P bc epoch =
        some (match bc.current_slots with
          | some v => .ok v
          | none => .error .NoValidatorsFound)) ∧
    (epoch ≠ P.epoch_at bc.head_block_number →
      epoch + 1 = P.epoch_at bc.head_block_number →
      get_validators_for_epoch P bc epoch =
        some (match bc.previous_slots with
          | some v => .ok v
          | none => .error .NoValidatorsFound)) ∧
    (epoch ≠ P.epoch_at bc.head_block_number →
      epoch + 1 ≠ P.epoch_at bc.head_block_number →
      epoch = 0 →
      get_validators_for_epoch P bc epoch = some (.error .InvalidEpoch)) ∧
    (∀ m v, epoch ≠ P.epoch_at bc.head_block_number →
      epoch + 1 ≠ P.epoch_at bc.head_block_number →
      epoch ≠ 0 →
      bc.get_block_at ((epoch - 1) * P.batches_per_epoch * P.batch_length) =
        .ok (.macro_block m) →
      m.validators = some v →
      get_validators_for_epoch P bc epoch = some (.ok v)) ∧
    (epoch = 0 → 2 ≤ P.epoch_at bc.head_block_number →
      get_validators_for_epoch P bc epoch = some (.error .InvalidEpoch)) := by
  refine ⟨?_, ?_, ?_, ?_, ?_⟩
  · intro h1
    unfold get_validators_for_epoch
    rw [if_pos h1]
  · intro h1 h2
    unfold get_validators_for_epoch
    rw [if_neg h1, if_pos h2]
  · intro h1 h2 h3
    unfold get_validators_for_epoch
    rw [if_neg h1, if_neg h2, if_pos h3]
  · intro m v h1 h2 h3 hblock hvals
    unfold get_validators_for_epoch
    rw [if_neg h1, if_neg h2, if_neg h3]
    simp only [Policy.election_block_of]
    rw [hblock]
    simp only [unwrap_macro_block]
    rw [hvals]
  · intro h0 hc
    unfold get_validators_for_epoch
    rw [if_neg (by omega), if_neg (by omega), if_pos h0]

/-- C1 witness inputs: with batch length 2 and 2 batches per epoch, a head
at block 8 is in epoch 2, so epoch 0 hits the `InvalidEpoch` branch; and the
current epoch returns the installed current slots. -/
theorem get_validators_for_epoch_spec_witness :
    get_validators_for_epoch ⟨2, 2⟩ sampleChainTwo 0 =
      some (.error .InvalidEpoch) ∧
    get_validators_for_epoch ⟨2, 2⟩ sampleChainTwo 2 =
      some (.ok sampleValidators) := by
  constructor
  · exact (get_validators_for_epoch_spec ⟨2, 2⟩ sampleChainTwo 0).2.2.2.2 rfl
      (by norm_num [Policy.epoch_at, Policy.batch_at, sampleChainTwo])
  · exact (get_validators_for_epoch_spec ⟨2, 2⟩ sampleChainTwo 2).1
      (by norm_num [Policy.epoch_at, Policy.batch_at, sampleChainTwo])

/-- C3: whenever the macro block before `block_number` is stored with its
body and the validator set of `epoch_at(block_number)` is available,
`get_proposer` returns the slot whose number is `compute_slot_number` of the
offset, the VRF entropy and that macro body's
`next_batch_initial_punished_set`, whose band is the band containing that
slot number, and whose validator is the validator owning it. -/
theorem get_proposer_spec (P : Policy) (bc : Blockchain)
    (block_number offset vrf_entropy : Nat)
    (m : MacroBlock) (body : MacroBody) (validators : Validators)
    (hblock : bc.get_block_at (P.macro_block_before block_number) =
      .ok (.macro_block m))
    (hbody : m.body = some body)
    (hvals : get_validators_for_epoch P bc (P.epoch_at block_number) =
      some (.ok validators)) :
    get_proposer P bc block_number offset vrf_entropy =
      some (.ok
        { number := bc.compute_slot_number offset vrf_entropy
            body.next_batch_initial_punished_set,
          band := validators.get_band_from_slot
            (bc.compute_slot_number offset vrf_entropy
              body.next_batch_initial_punished_set),
          validator := validators.get_validator_by_slot_number
            (bc.compute_slot_number offset vrf_entropy
              body.next_batch_initial_punished_set) }) := by
  unfold get_proposer
  rw [hblock]
  simp only [unwrap_macro_block]
  rw [hbody, hvals]

/-- The election macro block stored in the sample chain store. -/
def sampleMacroBlock : MacroBlock :=
  { body := some { next_batch_initial_punished_set := [1, 2] },
    validators := some sampleValidators }

/-- A chain whose store returns `sampleMacroBlock` at every height and whose
slot draw adds offset and entropy. -/
def sampleChainStore : Blockchain :=
  { head_block_number := 5,
    current_slots := some sampleValidators,
    previous_slots := none,
    get_block_at := fun _ => .ok (.macro_block sampleMacroBlock),
    compute_slot_number := fun offset entropy _ => offset + entropy }

/-- C3 witness input: block 5 at the unit policy, offset 3, entropy 9. -/
theorem get_proposer_spec_witness :
    sampleChainStore.get_block_at
        ((⟨1, 1⟩ : Policy).macro_block_before 5) =
      .ok (.macro_block sampleMacroBlock) ∧
    sampleMacroBlock.body = some { next_batch_initial_punished_set := [1, 2] } ∧
    get_validators_for_epoch ⟨1, 1⟩ sampleChainStore
        ((⟨1, 1⟩ : Policy).epoch_at 5) =
      some (.ok sampleValidators) ∧
    get_proposer ⟨1, 1⟩ sampleChainStore 5 3 9 =
      some (.ok
        { number := sampleChainStore.compute_slot_number 3 9
            (sampleMacroBlock.body.getD { next_batch_initial_punished_set := [] }).next_batch_initial_punished_set,
          band := sampleValidators.get_band_from_slot
            (sampleChainStore.compute_slot_number 3 9
              (sampleMacroBlock.body.getD { next_batch_initial_punished_set := [] }).next_batch_initial_punished_set),
          validator := sampleValidators.get_validator_by_slot_number
            (sampleChainStore.compute_slot_number 3 9
              (sampleMacroBlock.body.getD { next_batch_initial_punished_set := [] }).next_batch_initial_punished_set) }) := by
  refine ⟨rfl, rfl, ?_, ?_⟩
  · unfold get_validators_for_epoch sampleChainStore
    simp [Policy.epoch_at, Policy.batch_at]
  · exact get_proposer_spec ⟨1, 1⟩ sampleChainStore 5 3 9 sampleMacroBlock
      { next_batch_initial_punished_set := [1, 2] } sampleValidators rfl rfl
      (by unfold get_validators_for_epoch sampleChainStore
          simp [Policy.epoch_at, Policy.batch_at])

end Chain

namespace Tendermint

abbrev Blake2sHash := Nat

abbrev MacroHeader := Nat

abbrev MacroBody := Nat

abbrev SchnorrSignature := Nat

abbrev TendermintContribution := Nat

abbrev PubsubId := Nat

/-- The Tendermint step (`nimiq_tendermint::Step`), modelled from the spec:
`Propose`, `Prevote`, `Precommit`. -/
inductive Step where
  | propose
  | prevote
  | precommit
deriving DecidableEq

/-- The proposal wrapper `Header(MacroHeader, Option<PubsubId>)` of the
aggregation layer: the header plus the gossip id it arrived with. -/
structure Header where
  header : MacroHeader
  pubsub_id : Option PubsubId
deriving DecidableEq

/-- The body wrapper `Body(MacroBody)` of the aggregation layer. -/
structure Body where
  body : MacroBody
deriving DecidableEq

/-- `nimiq_tendermint::State` as populated and consumed by `MacroState`
(its maps modelled as ordered association lists, matching `BTreeMap`
iteration). -/
structure State where
  current_round : Nat
  current_step : Step
  known_proposals : List (Blake2sHash × Header)
  round_proposals : List (Nat × List (Blake2sHash × (Option Nat × (SchnorrSignature × Nat))))
  votes : List ((Nat × Step) × Option Blake2sHash)
  best_votes : List ((Nat × Step) × TendermintContribution)
  inherents : List (Blake2sHash × Body)
  locked : Option (Nat × Blake2sHash)
  valid : Option (Nat × Blake2sHash)
deriving DecidableEq

/-- `MacroState` from `validator/src/aggregation/tendermint/state.rs`: the
persisted Tendermint snapshot for one macro height. -/
structure MacroState where
  block_number : Nat
  round_number : Nat
  step : Step
  known_proposals : List (Blake2sHash × MacroHeader)
  round_proposals : List (Nat × List (Blake2sHash × (Option Nat × (SchnorrSignature × Nat))))
  votes : List ((Nat × Step) × Option Blake2sHash)
  best_votes : List ((Nat × Step) × TendermintContribution)
  inherents : List (Blake2sHash × MacroBody)
  locked : Option (Nat × Blake2sHash)
  valid : Option (Nat × Blake2sHash)
deriving DecidableEq

/-- `MacroState::from_tendermint_state`: persist a live Tendermint state,
dropping the pubsub ids of the known proposals and unwrapping the bodies. -/
def MacroState.from_tendermint_state (block_number : Nat) (state : State) :
    MacroState :=
  { block_number := block_number,
    round_number := state.current_round,
    step := state.current_step,
    known_proposals := state.known_proposals.map (fun p => (p.1, p.2.header)),
    round_proposals := state.round_proposals,
    votes := state.votes,
    best_votes := state.best_votes,
    inherents := state.inherents.map (fun p => (p.1, p.2.body)),
    locked := state.locked,
    valid := state.valid }

/-- `MacroState::into_tendermint_state`: restore the live state when the
reference height matches, wrapping each known proposal with pubsub id
`None`. -/
def MacroState.into_tendermint_state (self : MacroState)
    (reference_height : Nat) : Option State :=
  if self.block_number ≠ reference_height then none
  else
    some { current_round := self.round_number,
           current_step := self.step,
           known_proposals := self.known_proposals.map
             (fun p => (p.1, { header := p.2, pubsub_id := none })),
           round_proposals := self.round_proposals,
           votes := self.votes,
           best_votes := self.best_votes,
           inherents := self.inherents.map (fun p => (p.1, { body := p.2 })),
           locked := self.locked,
           valid := self.valid }

/-- `SignedProposal` as assembled by `get_proposal_for`: the proposal
header, the round it is returned for, the recorded valid round, and the
proposer's signature and slot. -/
structure SignedProposal where
  proposal : MacroHeader
  round : Nat
  valid_round : Option Nat
  signature : SchnorrSignature
  signer : Nat
deriving DecidableEq

/-- `MacroState::get_proposal_for`; the outer `Option` is `none` exactly
when the Rust `expect` would panic (a proposal hash present in
`round_proposals` but absent from `known_proposals`). -/
def MacroState.get_proposal_for (self : MacroState)
    (block_number round_number : Nat) (proposal_hash : Blake2sHash) :
    Option (Option SignedProposal) :=
  if self.block_number ≠ block_number then some none
  else
    match List.lookup round_number self.round_proposals with
    | none => some none
    | some round_map =>
      match List.lookup proposal_hash round_map with
      | none => some none
      | some (valid_round, signature) =>
        match List.lookup proposal_hash self.known_proposals with
        | none => none
        | some proposal =>
          some (some { proposal := proposal,
                       round := round_number,
                       valid_round := valid_round,
                       signature := signature.1,
                       signer := signature.2 })

lemma map_header_round_trip (l : List (Blake2sHash × Header)) :
    (l.map (fun p => (p.1, p.2.header))).map
      (fun p => (p.1, ({ header := p.2, pubsub_id := none } : Header))) =
    l.map (fun p => (p.1, ({ header := p.2.header, pubsub_id := none } : Header))) := by
  rw [List.map_map]
  rfl

lemma map_body_round_trip (l : List (Blake2sHash × Body)) :
    (l.map (fun p => (p.1, p.2.body))).map
      (fun p => (p.1, ({ body := p.2 } : Body))) = l := by
  rw [List.map_map]
  exact List.map_id l

lemma map_body_round_trip_comp (l : List (Blake2sHash × Body)) :
    List.map ((fun p => (p.1, ({ body := p.2 } : Body))) ∘
      (fun p : Blake2sHash × Body => (p.1, p.2.body))) l = l :=
  List.map_id l

/-- C2 (amended): the snapshot round trip restores the persisted round,
step, round proposals, votes, best votes, inherents, locked and valid
values exactly, and restores each known proposal with its pubsub id reset
to `None`; it returns `None` whenever the reference height differs from
the persisted block number.  Hence it returns `Some s` itself exactly when
the heights match and every known proposal of `s` already carried no
pubsub id. -/
theorem tendermint_state_round_trip (H : Nat) (s : State)
    (reference_height : Nat) :
    (MacroState.from_tendermint_state H s).into_tendermint_state
        reference_height =
      if reference_height = H then
        some { s with known_proposals := (s.known_proposals.map (fun p => (p.1, { header := p.2.header, pubsub_id := none }))) }
      else none := by
  unfold MacroState.into_tendermint_state MacroState.from_tendermint_state
  by_cases h : reference_height = H
  · subst h
    simp [map_header_round_trip, map_body_round_trip, map_body_round_trip_comp]
  · have h2 : H ≠ reference_height := fun hh => h hh.symm
    simp [h, h2]

/-- A live Tendermint state holding one known proposal that still carries a
pubsub id. -/
def samplePubsubState : State :=
  { current_round := 0,
    current_step := .propose,
    known_proposals := [(0, { header := 0, pubsub_id := some 0 })],
    round_proposals := [],
    votes := [],
    best_votes := [],
    inherents := [],
    locked := none,
    valid := none }

/-- C2 counterexample: with a matching reference height the round trip does
not return the original state when a known proposal carried a pubsub id —
`from_tendermint_state` drops the id and `into_tendermint_state` restores
`None` in its place. -/
theorem tendermint_round_trip_not_identity :
    (MacroState.from_tendermint_state 5 samplePubsubState).into_tendermint_state
        5 ≠ some samplePubsubState := by
  decide

/-- C10: if every proposal hash appearing in `round_proposals` is a key of
`known_proposals`, then `get_proposal_for` never panics, returns `None`
when the block number differs from the snapshot's or the round or the hash
is unknown for that round, and otherwise returns the `SignedProposal`
assembled from the stored header and the recorded round entry. -/
theorem get_proposal_for_spec (s : MacroState)
    (block_number round_number : Nat) (proposal_hash : Blake2sHash)
    (hinv : ∀ r round_map,
      List.lookup r s.round_proposals = some round_map →
      ∀ h e, List.lookup h round_map = some e →
        (List.lookup h s.known_proposals).isSome) :
    (s.get_proposal_for block_number round_number proposal_hash ≠ none) ∧
    (s.block_number ≠ block_number →
      s.get_proposal_for block_number round_number proposal_hash = some none) ∧
    (List.lookup round_number s.round_proposals = none →
      s.get_proposal_for block_number round_number proposal_hash = some none) ∧
    (∀ round_map,
      List.lookup round_number s.round_proposals = some round_map →
      List.lookup proposal_hash round_map = none →
      s.get_proposal_for block_number round_number proposal_hash = some none) ∧
    (∀ round_map valid_round signature proposal,
      s.block_number = block_number →
      List.lookup round_number s.round_proposals = some round_map →
      List.lookup proposal_hash round_map = some (valid_round, signature) →
      List.lookup proposal_hash s.known_proposals = some proposal →
      s.get_proposal_for block_number round_number proposal_hash =
        some (some { proposal := proposal,
                     round := round_number,
                     valid_round := valid_round,
                     signature := signature.1,
                     signer := signature.2 })) := by
  refine ⟨?_, ?_, ?_, ?_, ?_⟩
  · unfold MacroState.get_proposal_for
    by_cases hb : s.block_number ≠ block_number
    · rw [if_pos hb]
      simp
    · rw [if_neg hb]
      cases hr : List.lookup round_number s.round_proposals with
      | none => simp [hr]
      | some round_map =>
        cases hh : List.lookup proposal_hash round_map with
        | none => simp [hr, hh]
        | some e =>
          obtain ⟨valid_round, signature⟩ := e
          have hk := hinv round_number round_map hr proposal_hash
            (valid_round, signature) hh
          cases hkp : List.lookup proposal_hash s.known_proposals with
          | none =>
            rw [hkp] at hk
            simp at hk
          | some p => simp [hr, hh, hkp]
  · intro hb
    unfold MacroState.get_proposal_for
    rw [if_pos hb]
  · intro hr
    unfold MacroState.get_proposal_for
    by_cases hb : s.block_number ≠ block_number
    · rw [if_pos hb]
    · rw [if_neg hb]
      simp [hr]
  · intro round_map hr hh
    unfold MacroState.get_proposal_for
    by_cases hb : s.block_number ≠ block_number
    · rw [if_pos hb]
    · rw [if_neg hb]
      simp [hr, hh]
  · intro round_map valid_round signature proposal hbeq hr hh hkp
    unfold MacroState.get_proposal_for
    rw [if_neg (by omega)]
    simp [hr, hh, hkp]

/-- A snapshot at height 7 holding one proposal recorded for round 1. -/
def sampleMacroState : MacroState :=
  { block_number := 7,
    round_number := 1,
    step := .prevote,
    known_proposals := [(3, 42)],
    round_proposals := [(1, [(3, (some 0, (11, 2)))])],
    votes := [],
    best_votes := [],
    inherents := [],
    locked := none,
    valid := none }

/-- C10 witness input: the snapshot `sampleMacroState` satisfies the
round-proposals invariant, and the lookup at its own height, round 1 and
hash 3 returns the assembled signed proposal. -/
theorem get_proposal_for_spec_witness :
    (∀ r round_map,
      List.lookup r sampleMacroState.round_proposals = some round_map →
      ∀ h e, List.lookup h round_map = some e →
        (List.lookup h sampleMacroState.known_proposals).isSome) ∧
    sampleMacroState.get_proposal_for 7 1 3 =
      some (some { proposal := 42, round := 1, valid_round := some 0,
                   signature := 11, signer := 2 }) := by
  have hinv : ∀ r round_map,
      List.lookup r sampleMacroState.round_proposals = some round_map →
      ∀ h e, List.lookup h round_map = some e →
        (List.lookup h sampleMacroState.known_proposals).isSome := by
    intro r round_map hr h e he
    cases hc : r == 1 with
    | false => simp [sampleMacroState, List.lookup, hc] at hr
    | true =>
      simp only [sampleMacroState, List.lookup, hc] at hr
      injection hr with hr
      subst hr
      cases hd : h == 3 with
      | false => simp [List.lookup, hd] at he
      | true => simp [sampleMacroState, List.lookup, hd]
  exact ⟨hinv, (get_proposal_for_spec sampleMacroState 7 1 3 hinv).2.2.2.2
    [(3, (some 0, (11, 2)))] (some 0) (11, 2) 42 rfl rfl rfl rfl⟩

end Tendermint
